import Mathlib

/-!
Verification of the go-favicon icon-discovery pipeline (MuZhou233/go-favicon).

The Go source is shallowly embedded below: Go structs become structures,
pure Go functions become Lean functions, Go `int` becomes `Int`, Go strings
become `String`. Standard-library collaborators (crypto/sha256, net/url,
mime, path/filepath) are embedded from their specified behaviour in the Go
standard library; the Go map used for deduplication is embedded as an
association list whose unspecified iteration order is an explicit parameter.
-/

/-- Embedding of `Icon` (favicon.go): the sole domain entity of the library. -/
structure Icon where
  URL : String
  MimeType : String
  FileExt : String
  Width : Int
  Height : Int
  Hash : String
deriving DecidableEq

/-- Embedding of `iconNames` (well_known.go): common names of icon files
hosted in server roots. -/
def iconNames : List String := [("favicon.ico"), ("apple-touch-icon.png")]

/-- Embedding of `Icon.IsSquare` (favicon.go): true if the image has
equally-long sides. -/
def Icon.IsSquare (i : Icon) : Bool := i.Width == i.Height

/-- Embedding of `formatRank` (well_known.go): priority table used for
sorting icons; a higher number means a higher priority. -/
def formatRank (mimeType : String) : Int :=
  if mimeType = "image/png" then 10
  else if mimeType = "image/jpeg" then 9
  else if mimeType = "image/svg" then 8
  else if mimeType = "image/x-icon" then 7
  else if mimeType = "image/vnd.microsoft.icon" then 7
  else 0

/-- Lexicographic comparison of character lists by code point.  Go's `<` on
strings is bytewise lexicographic; on UTF-8 encodings byte order and code
point order agree, so this embeds Go string comparison. -/
def charListLt : List Char → List Char → Bool
  | _, [] => false
  | [], _ :: _ => true
  | a :: as, b :: bs =>
    if a.toNat < b.toNat then true
    else if b.toNat < a.toNat then false
    else charListLt as bs

/-- Embedding of Go's `<` on strings. -/
def strLt (a b : String) : Bool := charListLt a.toList b.toList

/-- Embedding of `ByWidth.Less` (well_known.go) as a binary comparator on the
two compared elements.  NOTE: the source reads
`fa, fb := formatRank(a.MimeType), formatRank(a.MimeType)` — both sides of
the format tie-break are computed from `a`'s MIME type.  The embedding
preserves that behaviour exactly. -/
def byWidthLess (a b : Icon) : Bool :=
  if a.Width ≠ b.Width then a.Width > b.Width
  else
    let fa := formatRank a.MimeType
    let fb := formatRank a.MimeType
    if fa ≠ fb then fa > fb
    else strLt a.URL b.URL

/-- The comparator as the specification describes it (spec §4.7 / claim C1):
descending width, then format priority of each side's own MIME type,
then ascending URL.  Written from the spec's words, to be compared with
`byWidthLess`, the embedding of the source. -/
def specLess (a b : Icon) : Bool :=
  if a.Width ≠ b.Width then a.Width > b.Width
  else if formatRank a.MimeType ≠ formatRank b.MimeType then
    formatRank a.MimeType > formatRank b.MimeType
  else strLt a.URL b.URL

/-! ### Filters (favicon.go)

A Go `Filter` is `func(*Icon) *Icon` returning nil for rejection; it is
embedded as `Icon → Option Icon`. -/

/-- Embedding of the filter produced by `OnlyMimeType(mimeType...)`
(favicon.go): walks the allow-list and accepts on the first match. -/
def onlyMimeTypeFilter (mimeType : List String) (i : Icon) : Option Icon :=
  match mimeType with
  | [] => none
  | s :: rest => if i.MimeType = s then some i else onlyMimeTypeFilter rest i

/-- Embedding of the filter produced by `MinWidth(width)` (favicon.go). -/
def minWidthFilter (width : Int) (icon : Icon) : Option Icon :=
  if icon.Width < width then none else some icon

/-- Embedding of the filter produced by `MaxWidth(width)` (favicon.go). -/
def maxWidthFilter (width : Int) (icon : Icon) : Option Icon :=
  if icon.Width > width then none else some icon

/-- Embedding of the `OnlySquare` preset filter (favicon.go). -/
def onlySquareFilter (icon : Icon) : Option Icon :=
  if ¬ icon.IsSquare then none else some icon

/-- Embedding of the `IgnoreNoSize` preset filter (favicon.go). -/
def ignoreNoSizeFilter (icon : Icon) : Option Icon :=
  if icon.Width = 0 ∨ icon.Height = 0 then none else some icon

/-- Embedding of the per-candidate filter-chain loop in `postProcessIcons`
(well_known.go): filters run in order and the first rejection
short-circuits. -/
def applyFilters (filters : List (Icon → Option Icon)) (i : Icon) : Option Icon :=
  match filters with
  | [] => some i
  | f :: fs =>
    match f i with
    | none => none
    | some j => applyFilters fs j

/-! ### SHA-256 (model of Go's crypto/sha256)

`iconHash` delegates to `crypto/sha256`; the hash is embedded from the
FIPS 180-4 specification of SHA-256, computed over byte lists. -/

/-- Truncation to a 32-bit word. -/
def w32 (n : Nat) : Nat := n % (2 ^ 32)

/-- Right rotation of a 32-bit word. -/
def rotr32 (n x : Nat) : Nat := w32 (Nat.lor (x >>> n) (x <<< (32 - n)))

/-- Bitwise complement of a 32-bit word. -/
def shaNot (x : Nat) : Nat := Nat.xor x (2 ^ 32 - 1)

/-- SHA-256 choice function. -/
def shaCh (x y z : Nat) : Nat := Nat.xor (Nat.land x y) (Nat.land (shaNot x) z)

/-- SHA-256 majority function. -/
def shaMaj (x y z : Nat) : Nat :=
  Nat.xor (Nat.land x y) (Nat.xor (Nat.land x z) (Nat.land y z))

/-- SHA-256 big sigma 0. -/
def shaS0 (x : Nat) : Nat := Nat.xor (rotr32 2 x) (Nat.xor (rotr32 13 x) (rotr32 22 x))

/-- SHA-256 big sigma 1. -/
def shaS1 (x : Nat) : Nat := Nat.xor (rotr32 6 x) (Nat.xor (rotr32 11 x) (rotr32 25 x))

/-- SHA-256 small sigma 0. -/
def shaLo0 (x : Nat) : Nat := Nat.xor (rotr32 7 x) (Nat.xor (rotr32 18 x) (x >>> 3))

/-- SHA-256 small sigma 1. -/
def shaLo1 (x : Nat) : Nat := Nat.xor (rotr32 17 x) (Nat.xor (rotr32 19 x) (x >>> 10))

/-- The 64 SHA-256 round constants (FIPS 180-4 section 4.2.2, written in
decimal). -/
def shaKConst : List Nat :=
  [1116352408, 1899447441, 3049323471, 3921009573, 961987163,
   1508970993, 2453635748, 2870763221, 3624381080, 310598401,
   607225278, 1426881987, 1925078388, 2162078206, 2614888103,
   3248222580, 3835390401, 4022224774, 264347078, 604807628,
   770255983, 1249150122, 1555081692, 1996064986, 2554220882,
   2821834349, 2952996808, 3210313671, 3336571891, 3584528711,
   113926993, 338241895, 666307205, 773529912, 1294757372,
   1396182291, 1695183700, 1986661051, 2177026350, 2456956037,
   2730485921, 2820302411, 3259730800, 3345764771, 3516065817,
   3600352804, 4094571909, 275423344, 430227734, 506948616,
   659060556, 883997877, 958139571, 1322822218, 1537002063,
   1747873779, 1955562222, 2024104815, 2227730452, 2361852424,
   2428436474, 2756734187, 3204031479, 3329325298]

/-- The SHA-256 initial hash value (FIPS 180-4 section 5.3.3, written in
decimal). -/
def shaHInit : List Nat :=
  [1779033703, 3144134277, 1013904242, 2773480762, 1359893119,
   2600822924, 528734635, 1541459225]

/-- Merkle–Damgård padding: append 0x80, zeros, and the 64-bit big-endian
bit length, reaching a multiple of 64 bytes. -/
def sha256Pad (msg : List Nat) : List Nat :=
  let L := msg.length
  let z := (120 - ((L + 1) % 64)) % 64
  let bitLen := 8 * L
  msg ++ [128] ++ List.replicate z 0
      ++ (List.range 8).map (fun i => (bitLen >>> (8 * (7 - i))) % 256)

/-- Group bytes into big-endian 32-bit words. -/
def bytesToWords : List Nat → List Nat
  | b0 :: b1 :: b2 :: b3 :: rest =>
    (((b0 * 256 + b1) * 256 + b2) * 256 + b3) :: bytesToWords rest
  | _ => []

/-- Extend the 16 block words to the 64-entry message schedule. -/
def shaSchedule (w16 : List Nat) : List Nat :=
  (List.range 48).foldl
    (fun w _ =>
      let n := w.length
      w ++ [w32 (shaLo1 (w.getD (n - 2) 0) + w.getD (n - 7) 0
                 + shaLo0 (w.getD (n - 15) 0) + w.getD (n - 16) 0)])
    w16

/-- One SHA-256 compression round on the working variables. -/
def shaRound (W : List Nat) (h : List Nat) (t : Nat) : List Nat :=
  match h with
  | [a, b, c, d, e, f, g, hh] =>
    let T1 := w32 (hh + shaS1 e + shaCh e f g + shaKConst.getD t 0 + W.getD t 0)
    let T2 := w32 (shaS0 a + shaMaj a b c)
    [w32 (T1 + T2), a, b, c, w32 (d + T1), e, f, g]
  | other => other

/-- Process one 64-byte block. -/
def shaBlock (hs : List Nat) (block : List Nat) : List Nat :=
  let W := shaSchedule (bytesToWords block)
  let hv := (List.range 64).foldl (shaRound W) hs
  (hs.zip hv).map (fun p => w32 (p.1 + p.2))

/-- Split a byte list into 64-byte chunks (fuel-driven; the fuel bound
`l.length` dominates the chunk count). -/
def chunk64Aux : Nat → List Nat → List (List Nat)
  | 0, _ => []
  | fuel + 1, l => if l = [] then [] else l.take 64 :: chunk64Aux fuel (l.drop 64)

/-- Split a byte list into 64-byte chunks. -/
def chunk64 (l : List Nat) : List (List Nat) := chunk64Aux l.length l

/-- SHA-256 digest of a byte list, as eight 32-bit words. -/
def sha256Words (msg : List Nat) : List Nat :=
  (chunk64 (sha256Pad msg)).foldl shaBlock shaHInit

/-- Lowercase hexadecimal digit. -/
def hexNibble (n : Nat) : Char :=
  if n < 10 then Char.ofNat (48 + n) else Char.ofNat (87 + n)

/-- Big-endian lowercase hex rendering of one 32-bit word (8 digits). -/
def hexWord32 (w : Nat) : List Char :=
  (List.range 8).map (fun i => hexNibble ((w >>> (4 * (7 - i))) % 16))

/-- Lowercase hex SHA-256 digest of a byte list: the rendering of
`sha256.Sum256` with the Go `%x` format verb. -/
def sha256hex (msg : List Nat) : String :=
  String.mk ((sha256Words msg).map hexWord32).flatten

/-- UTF-8 encoding of one character (Go strings are UTF-8 byte sequences). -/
def utf8Char (c : Char) : List Nat :=
  let n := c.toNat
  if n < 128 then [n]
  else if n < 2048 then [192 + n / 64, 128 + n % 64]
  else if n < 65536 then [224 + n / 4096, 128 + ((n / 64) % 64), 128 + (n % 64)]
  else [240 + n / 262144, 128 + ((n / 4096) % 64), 128 + ((n / 64) % 64), 128 + (n % 64)]

/-- UTF-8 bytes of a string. -/
def utf8Encode (s : String) : List Nat := (s.toList.map utf8Char).flatten

/-- Embedding of `iconHash` (well_known.go): the hex SHA-256 digest of the
string produced by the format `%s-%dx%d` applied to URL, width, height. -/
def iconHash (i : Icon) : String :=
  sha256hex (utf8Encode (i.URL ++ ("-") ++ toString i.Width ++ ("x") ++ toString i.Height))

/-! ### URLs (model of Go's net/url)

`absURL` and `mimeTypeURL` delegate to `net/url`; the parts of that package
the library exercises are embedded here from the package's implementation:
`Parse`, `ResolveReference` (RFC 3986 reference resolution), `URL.String`
and `resolvePath`.  Simplifications, none of which the claims exercise:
userinfo is stripped from the authority rather than stored, percent-escaping
is not decoded, and `ForceQuery` is not tracked.  `Parse` errors are
modelled for the rejections Go performs on the raw string: ASCII control
characters, a missing scheme before `:`, and a colon in the first segment
of a scheme-less relative path. -/

/-- Embedding of the components of a parsed `net/url.URL` that the library
reads: scheme, opaque part, host, path, raw query and fragment. -/
structure GoURL where
  scheme : String
  opq : String
  host : String
  path : String
  rawQuery : String
  fragment : String
deriving DecidableEq

/-- Split a character list at the first occurrence of a separator; the
separator is dropped and a missing separator leaves the tail empty
(the behaviour of `strings.Cut`). -/
def cutChar : List Char → Char → List Char × List Char
  | [], _ => ([], [])
  | c :: rest, sep =>
    if c = sep then ([], rest)
    else
      let p := cutChar rest sep
      (c :: p.1, p.2)

/-- Go considers a byte a control character if it is below 0x20 or is 0x7f. -/
def isCtl (c : Char) : Bool := c.toNat < 32 ∨ c.toNat = 127

/-- Port of net/url's `getScheme` loop: `none` is a parse error (colon with
an empty scheme), `some none` means no scheme is present, and
`some (some (sch, rest))` splits off a valid scheme. -/
def getSchemeAux : List Char → List Char → Option (Option (List Char × List Char))
  | _, [] => some none
  | acc, c :: cs =>
    if c.isAlpha then getSchemeAux (acc ++ [c]) cs
    else if c.isDigit ∨ c = ('+') ∨ c = ('-') ∨ c = ('.') then
      if acc = [] then some none else getSchemeAux (acc ++ [c]) cs
    else if c = (':') then
      if acc = [] then none else some (some (acc, cs))
    else some none

/-- Model of `net/url.Parse`: splits fragment, scheme, query, authority and
path, rejecting control characters, a `:` with no scheme before it, and a
colon inside the first segment of a scheme-less relative path. -/
def parseGoURL (s : String) : Option GoURL :=
  let cs := s.toList
  if cs.any isCtl then none
  else
    let fsplit := cutChar cs ('#')
    match getSchemeAux [] fsplit.1 with
    | none => none
    | some res =>
      let sch : String :=
        match res with
        | none => ""
        | some (a, _) => String.mk (a.map Char.toLower)
      let rest0 : List Char :=
        match res with
        | none => fsplit.1
        | some (_, r) => r
      let qsplit := cutChar rest0 ('?')
      let rest := qsplit.1
      let query := String.mk qsplit.2
      let frag := String.mk fsplit.2
      if rest.take 1 ≠ [('/')] then
        if sch ≠ "" then
          some { scheme := sch, opq := String.mk rest, host := "", path := "",
                 rawQuery := query, fragment := frag }
        else if (rest.takeWhile (fun c => c ≠ ('/'))).contains (':') then none
        else
          some { scheme := sch, opq := "", host := "", path := String.mk rest,
                 rawQuery := query, fragment := frag }
      else
        if (sch ≠ "" ∨ rest.take 3 ≠ [('/'), ('/'), ('/')]) ∧ rest.take 2 = [('/'), ('/')] then
          let after2 := rest.drop 2
          let auth := after2.takeWhile (fun c => c ≠ ('/'))
          let pathCs := after2.dropWhile (fun c => c ≠ ('/'))
          let host := (auth.reverse.takeWhile (fun c => c ≠ ('@'))).reverse
          some { scheme := sch, opq := "", host := String.mk host,
                 path := String.mk pathCs, rawQuery := query, fragment := frag }
        else
          some { scheme := sch, opq := "", host := "", path := String.mk rest,
                 rawQuery := query, fragment := frag }

/-- The part of a path up to and including its final slash (used by
net/url's `resolvePath` to merge a relative reference onto a base path). -/
def dirPartCs (base : List Char) : List Char :=
  ((base.reverse).dropWhile (fun c => c ≠ ('/'))).reverse

/-- Split a character list into the segments between occurrences of a
separator (the behaviour of `strings.Split`). -/
def listSplitOnChar (sep : Char) : List Char → List (List Char)
  | [] => [[]]
  | c :: rest =>
    let r := listSplitOnChar sep rest
    if c = sep then [] :: r
    else (c :: r.headD []) :: r.tail

/-- Join segments with slashes (the behaviour of `strings.Join` with "/"). -/
def joinWithSlash : List (List Char) → List Char
  | [] => []
  | [x] => x
  | x :: rest => x ++ ('/') :: joinWithSlash rest

/-- Port of net/url's `resolvePath` on character lists: merge a reference
path onto a base path and remove dot segments, always producing a rooted
path. -/
def resolvePathCs (base ref : List Char) : List Char :=
  let full : List Char :=
    if ref = [] then base
    else if ref.take 1 ≠ [('/')] then dirPartCs base ++ ref
    else ref
  if full = [] then []
  else
    let src := listSplitOnChar ('/') full
    let dst := src.foldl
      (fun dst elem =>
        if elem = [('.')] then dst
        else if elem = [('.'), ('.')] then dst.dropLast
        else dst ++ [elem])
      ([] : List (List Char))
    let dst :=
      if src.getLast? = some [('.')] ∨ src.getLast? = some [('.'), ('.')] then dst ++ [[]]
      else dst
    let joined := joinWithSlash dst
    ('/') :: (if joined.take 1 = [('/')] then joined.drop 1 else joined)

/-- Port of net/url's `resolvePath` over strings. -/
def resolvePath (base ref : String) : String :=
  String.mk (resolvePathCs base.toList ref.toList)

/-- Port of `net/url.URL.ResolveReference` (RFC 3986 §5.3): an absolute
reference wins outright; otherwise scheme, authority, query, fragment and
merged path are inherited from the base as the reference leaves them
unspecified. -/
def resolveReference (u ref : GoURL) : GoURL :=
  let sch := if ref.scheme = "" then u.scheme else ref.scheme
  if ref.scheme ≠ "" ∨ ref.host ≠ "" then
    { ref with scheme := sch, path := resolvePath ref.path ("") }
  else if ref.opq ≠ "" then
    { ref with scheme := sch, host := "", path := "" }
  else
    let inheritQF := ref.path = "" ∧ ref.rawQuery = ""
    { scheme := sch, opq := "", host := u.host,
      path := resolvePath u.path ref.path,
      rawQuery := if inheritQF then u.rawQuery else ref.rawQuery,
      fragment := if inheritQF ∧ ref.fragment = "" then u.fragment else ref.fragment }

/-- Port of `net/url.URL.String`: `scheme:`, then `//host` when an authority
is present, then the path (rooted when a host precedes it), query and
fragment. -/
def urlString (u : GoURL) : String :=
  let q := if u.rawQuery ≠ "" then ("?") ++ u.rawQuery else ("")
  let fr := if u.fragment ≠ "" then ("#") ++ u.fragment else ("")
  let pre := if u.scheme ≠ "" then u.scheme ++ (":") else ("")
  if u.opq ≠ "" then pre ++ u.opq ++ q ++ fr
  else
    let auth :=
      if u.scheme ≠ "" ∨ u.host ≠ "" then
        (if u.host ≠ "" ∨ u.path ≠ "" then ("//") else ("")) ++ u.host
      else ("")
    let p :=
      if u.path ≠ "" ∧ u.path.toList.take 1 ≠ [('/')] ∧ u.host ≠ "" then ("/") ++ u.path
      else u.path
    pre ++ auth ++ p ++ q ++ fr

/-- Embedding of `parser.absURL` (favicon.go): empty input or no base URL
returns the input unchanged; a parse failure returns the empty string;
otherwise the input is resolved against the base. -/
def absURL (baseURL : Option GoURL) (url : String) : String :=
  if url = "" ∨ baseURL = none then url
  else
    match parseGoURL url with
    | none => ""
    | some u =>
      match baseURL with
      | some b => urlString (resolveReference b u)
      | none => url

/-- Port of `path/filepath.Ext`: the suffix of the last path element
starting at its final dot, or empty. -/
def extAux : List Char → List Char → String
  | _, [] => ""
  | acc, c :: rest =>
    if c = ('/') then ""
    else if c = ('.') then String.mk (('.') :: acc)
    else extAux (c :: acc) rest

/-- Port of `path/filepath.Ext` over a path string. -/
def filepathExt (p : String) : String := extAux [] p.toList.reverse

/-- Model of `mime.TypeByExtension` restricted to the Go mime package's
builtin table (system-installed tables vary by platform and add entries;
no claim depends on a particular entry). -/
def mimeTypeByExtension (ext : String) : String :=
  let e := String.mk (ext.toList.map Char.toLower)
  if e = (".avif") then ("image/avif")
  else if e = (".css") then ("text/css; charset=utf-8")
  else if e = (".gif") then ("image/gif")
  else if e = (".htm") then ("text/html; charset=utf-8")
  else if e = (".html") then ("text/html; charset=utf-8")
  else if e = (".jpeg") then ("image/jpeg")
  else if e = (".jpg") then ("image/jpeg")
  else if e = (".js") then ("text/javascript; charset=utf-8")
  else if e = (".json") then ("application/json")
  else if e = (".mjs") then ("text/javascript; charset=utf-8")
  else if e = (".pdf") then ("application/pdf")
  else if e = (".png") then ("image/png")
  else if e = (".svg") then ("image/svg+xml")
  else if e = (".wasm") then ("application/wasm")
  else if e = (".webp") then ("image/webp")
  else if e = (".xml") then ("text/xml; charset=utf-8")
  else ("")

/-- Embedding of `mimeTypeURL` (favicon.go): MIME type from the file
extension of the URL's path, empty when the URL does not parse. -/
def mimeTypeURL (url : String) : String :=
  match parseGoURL url with
  | none => ""
  | some u => mimeTypeByExtension (filepathExt u.path)

/-- Digit run to a number. -/
def digitsToNat (cs : List Char) : Nat :=
  cs.foldl (fun n c => n * 10 + (c.toNat - 48)) 0

/-- Attempt to read a `NxM` size token starting at the head of the list. -/
def sizeTokenAt (cs : List Char) : Option (Int × Int) :=
  let ds := cs.takeWhile Char.isDigit
  if ds = [] then none
  else
    match cs.dropWhile Char.isDigit with
    | ('x') :: r2 =>
      let ds2 := r2.takeWhile Char.isDigit
      if ds2 = [] then none
      else some ((digitsToNat ds : Int), (digitsToNat ds2 : Int))
    | _ => none

/-- Scan left to right for the first size token. -/
def scanSizeToken : List Char → Option (Int × Int)
  | [] => none
  | c :: rest =>
    match sizeTokenAt (c :: rest) with
    | some s => some s
    | none => scanSizeToken rest

/-- Modelled from the spec: the repository's `extractSizeFromURL` helper is
called by `postProcessIcons` (well_known.go) but defined in a repository
file not present under src/; per spec §4.2 it scans the URL string for the
first digit-delimited `NxM` size token and yields both dimensions. -/
def extractSizeFromURL (url : String) : Option (Int × Int) :=
  scanSizeToken url.toList

/-- Modelled from the spec: the repository's `fileExt` helper is called by
`postProcessIcons` (well_known.go) but defined in a repository file not
present under src/; per spec §4.2 it derives the file extension (such as
`.png`) from the resolved URL's path component. -/
def fileExt (url : String) : String :=
  match parseGoURL url with
  | none => ""
  | some u => filepathExt u.path

/-! ### Post-processing pipeline (well_known.go)

`postProcessIcons` normalizes each candidate, deduplicates through a Go map
keyed by the icon hash, ranges over that map, applies the filter chain and
sorts.  The map is embedded as an association list built in insertion order
with overwrite-on-collision; since Go does not specify (and deliberately
randomizes) map iteration order, the order in which the map is ranged over
is an explicit parameter: any permutation of the association list is a
possible iteration. -/

/-- Embedding of the per-candidate normalization steps of `postProcessIcons`
(well_known.go): resolve the URL, infer a missing MIME type, drop the
candidate if URL or MIME type is still empty, infer a missing file
extension, infer missing dimensions from the URL, and stamp the hash. -/
def normalizeIcon (base : Option GoURL) (icon : Icon) : Option Icon :=
  let url := absURL base icon.URL
  let mt := if icon.MimeType = "" then mimeTypeURL url else icon.MimeType
  if url = "" ∨ mt = "" then none
  else
    let fe := if icon.FileExt = "" then fileExt url else icon.FileExt
    let wh : Int × Int :=
      if icon.Width = 0 then
        match extractSizeFromURL url with
        | some s => s
        | none => (icon.Width, icon.Height)
      else (icon.Width, icon.Height)
    let j : Icon :=
      { URL := url, MimeType := mt, FileExt := fe, Width := wh.1, Height := wh.2, Hash := "" }
    some { j with Hash := iconHash j }

/-- Go map insertion on the association-list embedding: replace the value of
an existing key in place, otherwise append the new entry. -/
def insertEntry : List (String × Icon) → String → Icon → List (String × Icon)
  | [], k, v => [(k, v)]
  | kv :: rest, k, v =>
    if kv.1 = k then (k, v) :: rest else kv :: insertEntry rest k v

/-- Go map lookup on the association-list embedding. -/
def lookupHash : List (String × Icon) → String → Option Icon
  | [], _ => none
  | kv :: rest, k => if kv.1 = k then some kv.2 else lookupHash rest k

/-- Embedding of the first loop of `postProcessIcons` (well_known.go): the
contents of the `tidied` map after every candidate has been normalized and
inserted keyed by its hash (later insertions overwrite earlier ones). -/
def tidyIcons (base : Option GoURL) (icons : List Icon) : List (String × Icon) :=
  icons.foldl
    (fun m icon =>
      match normalizeIcon base icon with
      | none => m
      | some j => insertEntry m j.Hash j)
    []

/-- One step of insertion sort: the element passes over every entry it is
not strictly less than, exactly as an element bubbles leftward in the
insertion sort used by Go's `sort.Sort` on short slices. -/
def insertGo (lt : Icon → Icon → Bool) (x : Icon) : List Icon → List Icon
  | [] => [x]
  | y :: ys => if lt x y then x :: y :: ys else y :: insertGo lt x ys

/-- Insertion sort, processing the input left to right. -/
def sortGoAux (lt : Icon → Icon → Bool) : List Icon → List Icon → List Icon
  | [], acc => acc
  | x :: xs, acc => sortGoAux lt xs (insertGo lt x acc)

/-- Embedding of `sort.Sort(ByWidth(icons))` (well_known.go) as insertion
sort.  Go's `sort.Sort` coincides with insertion sort on slices shorter
than seven elements (its shell-sort pass with gap six is vacuous there) and
in general produces some permutation of its input that is ordered by the
comparator, which is all the theorems below use. -/
def sortGo (lt : Icon → Icon → Bool) (l : List Icon) : List Icon :=
  sortGoAux lt l []

/-- Embedding of the second half of `postProcessIcons` (well_known.go): the
filter chain applied to every icon produced by ranging over the map, and
the surviving icons sorted.  `entries` is the sequence of map values in
the (unspecified) order the map is ranged over. -/
def filterSort (filters : List (Icon → Option Icon)) (entries : List Icon) : List Icon :=
  sortGo byWidthLess (entries.filterMap (applyFilters filters))

/-- Embedding of `postProcessIcons` (well_known.go) as a whole: `iter` is
the association list of the `tidied` map in the order Go ranges over it —
any permutation of `tidyIcons base icons`. -/
def postProcessIcons (filters : List (Icon → Option Icon))
    (iter : List (String × Icon)) : List Icon :=
  filterSort filters (iter.map Prod.snd)

/-! ### Well-known path prober (well_known.go) -/

/-- Embedding of `Finder.fetchURL` (favicon.go), with the HTTP client an
oracle from URL to response status (`none` is a transport error): the
fetch fails on a transport error and on any response status above 299. -/
def fetchURL (client : String → Option Nat) (url : String) : Except Unit Unit :=
  match client url with
  | none => Except.error ()
  | some status => if status > 299 then Except.error () else Except.ok ()

/-- Embedding of `parser.findWellKnownIcons` (well_known.go): with no base
URL there is nothing to probe; otherwise each well-known name is appended
to `scheme://host/` and probed, and a failed probe is skipped silently. -/
def findWellKnownIcons (base : Option GoURL) (client : String → Option Nat) : List Icon :=
  match base with
  | none => []
  | some b =>
    let root := b.scheme ++ ("://") ++ b.host ++ ("/")
    iconNames.foldl
      (fun icons name =>
        match fetchURL client (root ++ name) with
        | Except.error _ => icons
        | Except.ok _ =>
          icons ++ [{ URL := root ++ name, MimeType := "", FileExt := "",
                      Width := 0, Height := 0, Hash := "" }])
      []

/-! ### Concrete inputs used by witnesses and counterexamples -/

/-- An ICO icon whose URL sorts before the PNG icon's URL. -/
def c1IcoIcon : Icon :=
  { URL := "https://s.com/a.ico", MimeType := "image/x-icon", FileExt := "",
    Width := 10, Height := 10, Hash := "" }

/-- A PNG icon of the same width as the ICO icon. -/
def c1PngIcon : Icon :=
  { URL := "https://s.com/b.png", MimeType := "image/png", FileExt := "",
    Width := 10, Height := 10, Hash := "" }

/-- Two raw candidates identical except for their heights: they share URL
and width, so they tie under the ranking order while deduplicating to two
distinct map entries. -/
def cexI1 : Icon :=
  { URL := "https://e.com/icon.png", MimeType := "image/png", FileExt := "",
    Width := 10, Height := 20, Hash := "" }

/-- Second candidate of the tied pair. -/
def cexI2 : Icon :=
  { URL := "https://e.com/icon.png", MimeType := "image/png", FileExt := "",
    Width := 10, Height := 30, Hash := "" }

/-- The base URL https://a.com as parsed. -/
def baseACom : GoURL :=
  { scheme := "https", opq := "", host := "a.com", path := "", rawQuery := "", fragment := "" }

/-- A well-formed raw candidate that survives normalization. -/
def c4D1 : Icon :=
  { URL := "https://e.com/i.png", MimeType := "image/png", FileExt := "",
    Width := 4, Height := 4, Hash := "" }

/-- An icon of unknown size (0x0). -/
def zeroIcon : Icon :=
  { URL := "https://e.com/z.png", MimeType := "image/png", FileExt := "",
    Width := 0, Height := 0, Hash := "" }

/-- A non-square icon. -/
def rectIcon : Icon :=
  { URL := "https://e.com/r.png", MimeType := "image/png", FileExt := "",
    Width := 3, Height := 2, Hash := "" }

/-- Icons with equal (URL, Width, Height) but different remaining fields. -/
def c7A : Icon :=
  { URL := "https://e.com/h.png", MimeType := "image/png", FileExt := ".png",
    Width := 3, Height := 4, Hash := "stale" }

/-- Second icon of the hash-congruence pair. -/
def c7B : Icon :=
  { URL := "https://e.com/h.png", MimeType := "image/x-icon", FileExt := "",
    Width := 3, Height := 4, Hash := "" }

/-- An HTTP client oracle answering every URL with status 404. -/
def clientAll404 : String → Option Nat := fun _ => some 404

/-! ### Order lemmas for the comparator -/

theorem charListLt_asymm : ∀ (a b : List Char), charListLt a b = true → charListLt b a = false := by
  intro a
  induction a with
  | nil =>
    intro b h
    cases b with
    | nil => simpa [charListLt] using h
    | cons y ys => simp [charListLt]
  | cons x xs ih =>
    intro b h
    cases b with
    | nil => simpa [charListLt] using h
    | cons y ys =>
      simp only [charListLt] at h ⊢
      split_ifs at h ⊢ <;> first | rfl | omega | exact ih ys h | simp_all

theorem charListLt_negtrans : ∀ (a b c : List Char),
    charListLt b a = false → charListLt c b = false → charListLt c a = false := by
  intro a
  induction a with
  | nil =>
    intro b c h1 h2
    cases c <;> simp [charListLt]
  | cons x xs ih =>
    intro b c h1 h2
    cases b with
    | nil => simp [charListLt] at h1
    | cons y ys =>
      cases c with
      | nil => simp [charListLt] at h2
      | cons z zs =>
        simp only [charListLt] at h1 h2 ⊢
        split_ifs at h1 h2 ⊢ <;> first | rfl | omega | exact ih ys zs h1 h2 | simp_all

theorem strLt_asymm (a b : String) (h : strLt a b = true) : strLt b a = false :=
  charListLt_asymm _ _ h

theorem strLt_negtrans (a b c : String) (h1 : strLt b a = false) (h2 : strLt c b = false) :
    strLt c a = false :=
  charListLt_negtrans _ _ _ h1 h2

theorem byWidthLess_true_iff (a b : Icon) :
    byWidthLess a b = true
      ↔ (b.Width < a.Width ∨ (a.Width = b.Width ∧ strLt a.URL b.URL = true)) := by
  unfold byWidthLess
  by_cases h : a.Width = b.Width
  · simp [h]
  · rw [if_pos h]
    simp only [gt_iff_lt, decide_eq_true_eq]
    constructor
    · intro hlt
      exact Or.inl hlt
    · rintro (hlt | ⟨he, _⟩)
      · exact hlt
      · exact absurd he h

theorem byWidthLess_asymm (a b : Icon) (h : byWidthLess a b = true) : byWidthLess b a = false := by
  rw [← Bool.not_eq_true, byWidthLess_true_iff]
  rw [byWidthLess_true_iff] at h
  push_neg
  rcases h with h | ⟨he, hs⟩
  · exact ⟨by omega, fun hba => by omega⟩
  · refine ⟨by omega, fun _ => ?_⟩
    have := strLt_asymm _ _ hs
    simp [this]

theorem byWidthLess_negtrans (a b c : Icon)
    (h1 : byWidthLess b a = false) (h2 : byWidthLess c b = false) :
    byWidthLess c a = false := by
  rw [← Bool.not_eq_true, byWidthLess_true_iff] at h1 h2 ⊢
  push_neg at h1 h2 ⊢
  obtain ⟨hw1, hu1⟩ := h1
  obtain ⟨hw2, hu2⟩ := h2
  refine ⟨by omega, fun hca => ?_⟩
  have hcb : c.Width = b.Width := by omega
  have hba : b.Width = a.Width := by omega
  have hs1 : strLt b.URL a.URL = false := by
    have := hu1 hba
    simpa [Bool.not_eq_true] using this
  have hs2 : strLt c.URL b.URL = false := by
    have := hu2 hcb
    simpa [Bool.not_eq_true] using this
  have := strLt_negtrans _ _ _ hs1 hs2
  simp [this]

/-! ### Sorting lemmas -/

theorem insertGo_perm (lt : Icon → Icon → Bool) (x : Icon) :
    ∀ l : List Icon, (insertGo lt x l).Perm (x :: l) := by
  intro l
  induction l with
  | nil => exact List.Perm.refl _
  | cons y ys ih =>
    simp only [insertGo]
    split_ifs
    · exact List.Perm.refl _
    · exact (ih.cons y).trans (List.Perm.swap x y ys)

theorem sortGoAux_perm (lt : Icon → Icon → Bool) :
    ∀ (l acc : List Icon), (sortGoAux lt l acc).Perm (l ++ acc) := by
  intro l
  induction l with
  | nil => intro acc; exact List.Perm.refl _
  | cons x xs ih =>
    intro acc
    simp only [sortGoAux]
    exact ((ih _).trans (List.Perm.append_left xs (insertGo_perm lt x acc))).trans
      List.perm_middle

theorem sortGo_perm (lt : Icon → Icon → Bool) (l : List Icon) : (sortGo lt l).Perm l := by
  have h := sortGoAux_perm lt l []
  simpa [sortGo] using h

theorem insertGo_pairwise (lt : Icon → Icon → Bool)
    (hasymm : ∀ a b, lt a b = true → lt b a = false)
    (hnegtrans : ∀ a b c, lt b a = false → lt c b = false → lt c a = false)
    (x : Icon) :
    ∀ l : List Icon, l.Pairwise (fun p q => lt q p = false) →
      (insertGo lt x l).Pairwise (fun p q => lt q p = false) := by
  intro l
  induction l with
  | nil => intro _; simp [insertGo]
  | cons y ys ih =>
    intro hl
    rw [List.pairwise_cons] at hl
    obtain ⟨hy, hys⟩ := hl
    simp only [insertGo]
    split_ifs with hxy
    · rw [List.pairwise_cons]
      refine ⟨?_, List.pairwise_cons.mpr ⟨hy, hys⟩⟩
      intro z hz
      rcases List.mem_cons.mp hz with hz | hz
      · subst hz
        exact hasymm _ _ hxy
      · exact hnegtrans _ _ _ (hasymm _ _ hxy) (hy z hz)
    · rw [List.pairwise_cons]
      constructor
      · intro z hz
        have hz' := (insertGo_perm lt x ys).mem_iff.mp hz
        rcases List.mem_cons.mp hz' with hz' | hz'
        · subst hz'
          exact Bool.of_not_eq_true (fun ht => absurd ht (by simp [hxy]))
        · exact hy z hz'
      · exact ih hys

theorem sortGoAux_pairwise (lt : Icon → Icon → Bool)
    (hasymm : ∀ a b, lt a b = true → lt b a = false)
    (hnegtrans : ∀ a b c, lt b a = false → lt c b = false → lt c a = false) :
    ∀ (l acc : List Icon), acc.Pairwise (fun p q => lt q p = false) →
      (sortGoAux lt l acc).Pairwise (fun p q => lt q p = false) := by
  intro l
  induction l with
  | nil => intro acc h; exact h
  | cons x xs ih =>
    intro acc h
    exact ih _ (insertGo_pairwise lt hasymm hnegtrans x acc h)

theorem sortGo_pairwise (lt : Icon → Icon → Bool)
    (hasymm : ∀ a b, lt a b = true → lt b a = false)
    (hnegtrans : ∀ a b c, lt b a = false → lt c b = false → lt c a = false)
    (l : List Icon) :
    (sortGo lt l).Pairwise (fun p q => lt q p = false) :=
  sortGoAux_pairwise lt hasymm hnegtrans l [] (by simp)

theorem sorted_perm_rigid_eq (lt : Icon → Icon → Bool) :
    ∀ (l₁ l₂ : List Icon),
      l₁.Pairwise (fun p q => lt q p = false) →
      l₂.Pairwise (fun p q => lt q p = false) →
      l₁.Perm l₂ →
      (∀ a b, a ∈ l₁ → b ∈ l₁ → lt a b = false → lt b a = false → a = b) →
      l₁ = l₂ := by
  intro l₁
  induction l₁ with
  | nil =>
    intro l₂ _ _ hp _
    exact (hp.symm.eq_nil).symm
  | cons a t₁ ih =>
    intro l₂ h₁ h₂ hp hr
    cases l₂ with
    | nil => exact absurd hp.eq_nil (by simp)
    | cons b t₂ =>
      rw [List.pairwise_cons] at h₁ h₂
      have hab : a = b := by
        by_cases hab : a = b
        · exact hab
        · have hbmem : b ∈ a :: t₁ := hp.symm.subset (List.mem_cons_self b t₂)
          have hamem : a ∈ b :: t₂ := hp.subset (List.mem_cons_self a t₁)
          have hba : lt b a = false := by
            rcases List.mem_cons.mp hbmem with h | h
            · exact absurd h.symm hab
            · exact h₁.1 b h
          have hab' : lt a b = false := by
            rcases List.mem_cons.mp hamem with h | h
            · exact absurd h hab
            · exact h₂.1 a h
          exact hr a b (List.mem_cons_self a t₁)
            (by rcases List.mem_cons.mp hbmem with h | h
                · exact absurd h.symm hab
                · exact List.mem_cons_of_mem a h)
            hab' hba
      subst hab
      have htp : t₁.Perm t₂ := hp.cons_inv
      have ht : t₁ = t₂ :=
        ih t₂ h₁.2 h₂.2 htp
          (fun x y hx hy => hr x y (List.mem_cons_of_mem a hx) (List.mem_cons_of_mem a hy))
      rw [ht]

/-! ### Association-list (Go map) lemmas -/

theorem lookupHash_insertEntry_self :
    ∀ (m : List (String × Icon)) (k : String) (v : Icon),
      lookupHash (insertEntry m k v) k = some v := by
  intro m
  induction m with
  | nil => intro k v; simp [insertEntry, lookupHash]
  | cons kv rest ih =>
    intro k v
    simp only [insertEntry]
    split_ifs with h
    · simp [lookupHash]
    · simp [lookupHash, h, ih]

theorem lookupHash_insertEntry_ne :
    ∀ (m : List (String × Icon)) (k : String) (v : Icon) (q : String), q ≠ k →
      lookupHash (insertEntry m k v) q = lookupHash m q := by
  intro m
  induction m with
  | nil =>
    intro k v q hq
    have hkq : ¬ k = q := fun e => hq e.symm
    simp [insertEntry, lookupHash, hkq]
  | cons kv rest ih =>
    intro k v q hq
    have hkq : ¬ k = q := fun e => hq e.symm
    simp only [insertEntry]
    split_ifs with h
    · subst h
      simp [lookupHash, hkq]
    · simp only [lookupHash]
      split_ifs with h2
      · rfl
      · exact ih k v q hq

theorem keys_insertEntry :
    ∀ (m : List (String × Icon)) (k : String) (v : Icon),
      (insertEntry m k v).map Prod.fst
        = if k ∈ m.map Prod.fst then m.map Prod.fst else m.map Prod.fst ++ [k] := by
  intro m
  induction m with
  | nil => intro k v; simp [insertEntry]
  | cons kv rest ih =>
    intro k v
    simp only [insertEntry]
    by_cases h : kv.1 = k
    · rw [if_pos h]
      rw [if_pos (by simp only [List.map_cons, List.mem_cons]; exact Or.inl h.symm)]
      simp [h]
    · rw [if_neg h]
      simp only [List.map_cons]
      rw [ih k v]
      by_cases h2 : k ∈ rest.map Prod.fst
      · rw [if_pos h2,
          if_pos (by simp only [List.map_cons, List.mem_cons]; exact Or.inr h2)]
      · rw [if_neg h2,
          if_neg (by
            simp only [List.map_cons, List.mem_cons]
            rintro (h3 | h3)
            · exact h h3.symm
            · exact h2 h3)]
        simp

theorem nodup_keys_insertEntry (m : List (String × Icon)) (k : String) (v : Icon)
    (h : (m.map Prod.fst).Nodup) : ((insertEntry m k v).map Prod.fst).Nodup := by
  rw [keys_insertEntry]
  split_ifs with hmem
  · exact h
  · simp [List.nodup_append, h, hmem]

theorem lookupHash_mem_keys :
    ∀ (m : List (String × Icon)) (k : String) (v : Icon),
      lookupHash m k = some v → k ∈ m.map Prod.fst := by
  intro m
  induction m with
  | nil => intro k v h; simp [lookupHash] at h
  | cons kv rest ih =>
    intro k v h
    simp only [lookupHash] at h
    split_ifs at h with h1
    · simp [h1.symm]
    · simp only [List.map_cons, List.mem_cons]
      exact Or.inr (ih k v h)

theorem mem_values_insertEntry :
    ∀ (m : List (String × Icon)) (k : String) (v : Icon) (kv : String × Icon),
      kv ∈ insertEntry m k v → kv.2 = v ∨ kv ∈ m := by
  intro m
  induction m with
  | nil => intro k v kv h; simp [insertEntry] at h; simp [h]
  | cons kv0 rest ih =>
    intro k v kv h
    simp only [insertEntry] at h
    split_ifs at h with h1
    · rcases List.mem_cons.mp h with h | h
      · exact Or.inl (by simp [h])
      · exact Or.inr (List.mem_cons_of_mem _ h)
    · rcases List.mem_cons.mp h with h | h
      · exact Or.inr (by simp [h])
      · rcases ih k v kv h with h2 | h2
        · exact Or.inl h2
        · exact Or.inr (List.mem_cons_of_mem _ h2)

/-! ### Lemmas about the dedup loop of `postProcessIcons` -/

theorem iconHash_congr (a b : Icon) (h1 : a.URL = b.URL) (h2 : a.Width = b.Width)
    (h3 : a.Height = b.Height) : iconHash a = iconHash b := by
  unfold iconHash
  rw [h1, h2, h3]

theorem normalizeIcon_some_fields (base : Option GoURL) (i j : Icon)
    (h : normalizeIcon base i = some j) :
    j.URL ≠ "" ∧ j.MimeType ≠ "" ∧ j.Hash = iconHash j := by
  by_cases hu : absURL base i.URL = ""
  · simp [normalizeIcon, hu] at h
  · by_cases hm : (if i.MimeType = "" then mimeTypeURL (absURL base i.URL)
        else i.MimeType) = ""
    · simp only [normalizeIcon] at h
      rw [if_pos (Or.inr hm)] at h
      cases h
    · simp only [normalizeIcon] at h
      rw [if_neg (by push_neg; exact ⟨hu, hm⟩)] at h
      have hj := Option.some.inj h
      subst hj
      exact ⟨hu, hm, rfl⟩

theorem tidy_go_nodup (base : Option GoURL) :
    ∀ (l : List Icon) (m : List (String × Icon)),
      (m.map Prod.fst).Nodup →
      ((l.foldl
          (fun m icon =>
            match normalizeIcon base icon with
            | none => m
            | some j => insertEntry m j.Hash j)
          m).map Prod.fst).Nodup := by
  intro l
  induction l with
  | nil => intro m h; exact h
  | cons i l ih =>
    intro m h
    simp only [List.foldl_cons]
    cases hn : normalizeIcon base i with
    | none => simpa [hn] using ih m h
    | some j => simpa [hn] using ih _ (nodup_keys_insertEntry m j.Hash j h)

theorem tidy_nodup (base : Option GoURL) (icons : List Icon) :
    ((tidyIcons base icons).map Prod.fst).Nodup := by
  simpa [tidyIcons] using tidy_go_nodup base icons [] (by simp)

theorem lookup_tidy_go (base : Option GoURL) (k : String) :
    ∀ (l : List Icon) (m : List (String × Icon)),
      lookupHash
          (l.foldl
            (fun m icon =>
              match normalizeIcon base icon with
              | none => m
              | some j => insertEntry m j.Hash j)
            m) k
        = (match ((l.filterMap (normalizeIcon base)).filter (fun j => j.Hash == k)).getLast? with
           | some v => some v
           | none => lookupHash m k) := by
  intro l
  induction l with
  | nil => intro m; simp
  | cons i l ih =>
    intro m
    simp only [List.foldl_cons]
    cases hn : normalizeIcon base i with
    | none => simp [hn, ih m]
    | some j =>
      rw [List.filterMap_cons_some hn]
      by_cases hk : (j.Hash == k) = true
      · have hfc : (j :: l.filterMap (normalizeIcon base)).filter (fun j' => j'.Hash == k)
            = j :: (l.filterMap (normalizeIcon base)).filter (fun j' => j'.Hash == k) :=
          List.filter_cons_of_pos hk
        rw [hfc]
        have hkeq : j.Hash = k := by simpa using hk
        cases hf : (l.filterMap (normalizeIcon base)).filter (fun j => j.Hash == k) with
        | nil =>
          simp only [hn]
          rw [ih _]
          simp [hf]
          rw [← hkeq]
          exact lookupHash_insertEntry_self m j.Hash j
        | cons x xs =>
          simp only [hn]
          rw [ih _]
          rw [hf, List.getLast?_cons_cons]
          have : (x :: xs).getLast?.isSome := by simp [List.getLast?_isSome]
          obtain ⟨v, hv⟩ := Option.isSome_iff_exists.mp this
          simp [hv]
      · have hfc : (j :: l.filterMap (normalizeIcon base)).filter (fun j' => j'.Hash == k)
            = (l.filterMap (normalizeIcon base)).filter (fun j' => j'.Hash == k) :=
          List.filter_cons_of_neg hk
        rw [hfc]
        have hkne : k ≠ j.Hash := by
          intro he
          exact hk (by simp [he])
        simp only [hn]
        rw [ih _]
        cases hf : ((l.filterMap (normalizeIcon base)).filter (fun j => j.Hash == k)).getLast? with
        | none => simp [lookupHash_insertEntry_ne m j.Hash j k hkne]
        | some v => simp

theorem lookup_tidy (base : Option GoURL) (icons : List Icon) (k : String) :
    lookupHash (tidyIcons base icons) k
      = ((icons.filterMap (normalizeIcon base)).filter (fun j => j.Hash == k)).getLast? := by
  have h := lookup_tidy_go base k icons []
  rw [tidyIcons] at *
  rw [h]
  cases ((icons.filterMap (normalizeIcon base)).filter (fun j => j.Hash == k)).getLast? with
  | none => simp [lookupHash]
  | some v => simp

theorem tidy_go_values (base : Option GoURL) (P : Icon → Prop)
    (hP : ∀ i j, normalizeIcon base i = some j → P j) :
    ∀ (l : List Icon) (m : List (String × Icon)),
      (∀ kv ∈ m, P kv.2) →
      ∀ kv ∈ l.foldl
          (fun m icon =>
            match normalizeIcon base icon with
            | none => m
            | some j => insertEntry m j.Hash j)
          m, P kv.2 := by
  intro l
  induction l with
  | nil => intro m hm kv hkv; exact hm kv hkv
  | cons i l ih =>
    intro m hm kv hkv
    simp only [List.foldl_cons] at hkv
    cases hn : normalizeIcon base i with
    | none =>
      rw [hn] at hkv
      exact ih m hm kv hkv
    | some j =>
      rw [hn] at hkv
      refine ih _ ?_ kv hkv
      intro kv' hkv'
      rcases mem_values_insertEntry m j.Hash j kv' hkv' with h | h
      · rw [h]
        exact hP i j hn
      · exact hm kv' h

theorem tidy_values (base : Option GoURL) (icons : List Icon) :
    ∀ kv ∈ tidyIcons base icons, kv.2.URL ≠ "" ∧ kv.2.MimeType ≠ "" := by
  intro kv hkv
  refine tidy_go_values base (fun j => j.URL ≠ "" ∧ j.MimeType ≠ "")
    (fun i j h => ?_) icons [] (by simp) kv ?_
  · have := normalizeIcon_some_fields base i j h
    exact ⟨this.1, this.2.1⟩
  · simpa [tidyIcons] using hkv

/-! ### Filter-chain lemmas -/

theorem applyFilters_acceptReject :
    ∀ (filters : List (Icon → Option Icon)),
      (∀ f ∈ filters, ∀ i, f i = none ∨ f i = some i) →
      ∀ i j, applyFilters filters i = some j → j = i := by
  intro filters
  induction filters with
  | nil =>
    intro _ i j h
    simp only [applyFilters] at h
    exact (Option.some.inj h).symm
  | cons f fs ih =>
    intro hacc i j h
    simp only [applyFilters] at h
    cases hf : f i with
    | none => rw [hf] at h; cases h
    | some k =>
      rw [hf] at h
      rcases hacc f (List.mem_cons_self f fs) i with h' | h'
      · rw [hf] at h'; cases h'
      · rw [hf] at h'
        have hk : k = i := Option.some.inj h'
        rw [hk] at h
        exact ih (fun g hg => hacc g (List.mem_cons_of_mem f hg)) i j h

theorem applyFilters_minmax (lo hi : Int) (i : Icon) :
    applyFilters [minWidthFilter lo, maxWidthFilter hi] i
      = if lo ≤ i.Width ∧ i.Width ≤ hi then some i else none := by
  by_cases h1 : i.Width < lo <;> by_cases h2 : i.Width > hi <;>
    simp [applyFilters, minWidthFilter, maxWidthFilter, h1, h2] <;>
    first
      | omega
      | rw [if_neg (by omega)]
      | rw [if_pos (by omega)]

theorem applyFilters_maxmin (lo hi : Int) (i : Icon) :
    applyFilters [maxWidthFilter hi, minWidthFilter lo] i
      = if lo ≤ i.Width ∧ i.Width ≤ hi then some i else none := by
  by_cases h1 : i.Width < lo <;> by_cases h2 : i.Width > hi <;>
    simp [applyFilters, minWidthFilter, maxWidthFilter, h1, h2] <;>
    first
      | omega
      | rw [if_neg (by omega)]
      | rw [if_pos (by omega)]

theorem filterMap_ifPred (p : Icon → Prop) [DecidablePred p] :
    ∀ l : List Icon,
      (l.filterMap (fun i => if p i then some i else none)) = l.filter (fun i => decide (p i)) := by
  intro l
  induction l with
  | nil => simp
  | cons x xs ih =>
    by_cases h : p x
    · rw [List.filterMap_cons_some (by rw [if_pos h])]
      rw [List.filter_cons_of_pos (by simpa using h)]
      rw [ih]
    · rw [List.filterMap_cons_none (by rw [if_neg h])]
      rw [List.filter_cons_of_neg (by simpa using h)]
      exact ih

/-! ### Claims -/

/-- Claim C1 (code bug): the Ranker is claimed to order candidates by width
descending, then format priority of each side's own MIME type, then URL
ascending.  The source's `ByWidth.Less` computes the format rank of `a`'s
MIME type for both sides (`fa, fb := formatRank(a.MimeType),
formatRank(a.MimeType)`), so the format tie-break never fires: at equal
width an ICO icon with a smaller URL sorts before a PNG icon, while the
specified comparator orders the PNG first. -/
theorem c1_ranker_comparator_bug :
    byWidthLess c1IcoIcon c1PngIcon = true
    ∧ sortGo byWidthLess [c1PngIcon, c1IcoIcon] = [c1IcoIcon, c1PngIcon]
    ∧ specLess c1PngIcon c1IcoIcon = true
    ∧ specLess c1IcoIcon c1PngIcon = false
    ∧ formatRank c1PngIcon.MimeType > formatRank c1IcoIcon.MimeType := by
  refine ⟨by decide, by decide, by decide, by decide, by decide⟩

/-- Claim C2 (amended): for a fixed raw-candidate list, two runs of the
normalize-dedup-filter-sort stage — which may range over the dedup map in
different orders — produce the same icons up to permutation, and produce
identical (byte-identical) ordered output whenever no two surviving
candidates are tied under the comparator (equal width and equal URL).  The
unamended byte-identical claim fails: see the counterexample. -/
theorem c2_determinism_up_to_ties (filters : List (Icon → Option Icon)) (base : Option GoURL)
    (icons : List Icon) (iter1 iter2 : List (String × Icon))
    (h1 : iter1.Perm (tidyIcons base icons)) (h2 : iter2.Perm (tidyIcons base icons)) :
    (postProcessIcons filters iter1).Perm (postProcessIcons filters iter2)
    ∧ ((∀ a ∈ (iter1.map Prod.snd).filterMap (applyFilters filters),
          ∀ b ∈ (iter1.map Prod.snd).filterMap (applyFilters filters),
          byWidthLess a b = false → byWidthLess b a = false → a = b) →
        postProcessIcons filters iter1 = postProcessIcons filters iter2) := by
  have hperm : iter1.Perm iter2 := h1.trans h2.symm
  have hs : ((iter1.map Prod.snd).filterMap (applyFilters filters)).Perm
      ((iter2.map Prod.snd).filterMap (applyFilters filters)) :=
    (hperm.map Prod.snd).filterMap (applyFilters filters)
  simp only [postProcessIcons, filterSort]
  constructor
  · exact ((sortGo_perm _ _).trans hs).trans (sortGo_perm _ _).symm
  · intro hr
    apply sorted_perm_rigid_eq byWidthLess
    · exact sortGo_pairwise _ byWidthLess_asymm byWidthLess_negtrans _
    · exact sortGo_pairwise _ byWidthLess_asymm byWidthLess_negtrans _
    · exact ((sortGo_perm _ _).trans hs).trans (sortGo_perm _ _).symm
    · intro a b ha hb hab hba
      exact hr a ((sortGo_perm _ _).subset ha) b ((sortGo_perm _ _).subset hb) hab hba

set_option maxRecDepth 1000000 in
set_option maxHeartbeats 2000000 in
/-- Claim C2 counterexample: two raw candidates sharing URL and width but
with different heights dedup to two distinct map entries that tie under the
comparator; ranging over the map in reversed order — a legitimate iteration
order, being a permutation of the map's entries — yields a different output
sequence, so byte-identical output is not guaranteed. -/
theorem c2_byte_identical_counterexample :
    ((tidyIcons none [cexI1, cexI2]).reverse).Perm (tidyIcons none [cexI1, cexI2])
    ∧ postProcessIcons [] (tidyIcons none [cexI1, cexI2])
        ≠ postProcessIcons [] ((tidyIcons none [cexI1, cexI2]).reverse) :=
  ⟨List.reverse_perm _, by decide⟩

set_option maxRecDepth 1000000 in
set_option maxHeartbeats 2000000 in
/-- Claim C2 witness: a candidate set without ties, processed under two
different map iteration orders, yields permutation-equal and in fact equal
output. -/
theorem c2_determinism_up_to_ties_witness :
    (postProcessIcons [] (tidyIcons none [c4D1, rectIcon])).Perm
        (postProcessIcons [] ((tidyIcons none [c4D1, rectIcon]).reverse))
    ∧ postProcessIcons [] (tidyIcons none [c4D1, rectIcon])
        = postProcessIcons [] ((tidyIcons none [c4D1, rectIcon]).reverse) := by
  have h := c2_determinism_up_to_ties [] none [c4D1, rectIcon]
    (tidyIcons none [c4D1, rectIcon]) ((tidyIcons none [c4D1, rectIcon]).reverse)
    (List.Perm.refl _) (List.reverse_perm _)
  exact ⟨h.1, h.2 (by decide)⟩

/-- Claim C3: `parser.absURL` returns the empty string on empty input,
returns the input unchanged when no base URL is configured, returns the
empty string when a base is configured and the input fails to parse, and
otherwise resolves the input against the base; an absolute input is
returned as-is regardless of the base. -/
theorem c3_url_resolution :
    (∀ (base : Option GoURL) (url : String),
        absURL base url =
          (if url = "" then ("")
           else
             match base with
             | none => url
             | some b =>
               match parseGoURL url with
               | none => ("")
               | some u => urlString (resolveReference b u)))
    ∧ absURL (some baseACom) ("/x") = "https://a.com/x"
    ∧ (∀ b : GoURL, absURL (some b) ("https://b.com/x") = "https://b.com/x")
    ∧ absURL none ("https://b.com/x") = "https://b.com/x"
    ∧ absURL (some baseACom) ("ht\ttp") = "" := by
  refine ⟨?_, by decide, ?_, by decide, by decide⟩
  · intro base url
    by_cases hu : url = ""
    · subst hu
      simp [absURL]
    · rw [if_neg hu]
      cases base with
      | none => simp [absURL, hu]
      | some b =>
        have hcond : ¬ (url = "" ∨ (some b : Option GoURL) = none) := by simp [hu]
        simp only [absURL]
        rw [if_neg hcond]
  · intro b
    rfl

/-- Claim C4: deduplication collapses by identity.  The dedup map's keys
are pairwise distinct; looking up a hash returns the last normalized
candidate bearing it (later candidates overwrite earlier ones); and any
two input candidates whose normalized forms agree on (URL, Width, Height)
receive the same hash and occupy exactly one map entry. -/
theorem c4_dedup_identity (base : Option GoURL) (icons : List Icon) :
    ((tidyIcons base icons).map Prod.fst).Nodup
    ∧ (∀ k : String,
        lookupHash (tidyIcons base icons) k
          = ((icons.filterMap (normalizeIcon base)).filter (fun j => j.Hash == k)).getLast?)
    ∧ (∀ i1 i2 j1 j2 : Icon, i1 ∈ icons → i2 ∈ icons →
        normalizeIcon base i1 = some j1 → normalizeIcon base i2 = some j2 →
        j1.URL = j2.URL → j1.Width = j2.Width → j1.Height = j2.Height →
        j1.Hash = j2.Hash ∧ ((tidyIcons base icons).map Prod.fst).count j1.Hash = 1) := by
  refine ⟨tidy_nodup base icons, lookup_tidy base icons, ?_⟩
  intro i1 i2 j1 j2 hi1 _ hn1 hn2 hu hw hh
  have hhash : j1.Hash = j2.Hash := by
    have e1 := (normalizeIcon_some_fields base i1 j1 hn1).2.2
    have e2 := (normalizeIcon_some_fields base i2 j2 hn2).2.2
    rw [e1, e2]
    exact iconHash_congr j1 j2 hu hw hh
  refine ⟨hhash, ?_⟩
  have hmem : j1 ∈ icons.filterMap (normalizeIcon base) :=
    List.mem_filterMap.mpr ⟨i1, hi1, hn1⟩
  have hfil : j1 ∈ (icons.filterMap (normalizeIcon base)).filter (fun j => j.Hash == j1.Hash) :=
    List.mem_filter.mpr ⟨hmem, by simp⟩
  have hne : ((icons.filterMap (normalizeIcon base)).filter (fun j => j.Hash == j1.Hash)) ≠ [] :=
    List.ne_nil_of_mem hfil
  have hsome : (lookupHash (tidyIcons base icons) j1.Hash).isSome := by
    rw [lookup_tidy base icons j1.Hash, List.getLast?_isSome]
    exact hne
  obtain ⟨v, hv⟩ := Option.isSome_iff_exists.mp hsome
  have hkmem : j1.Hash ∈ (tidyIcons base icons).map Prod.fst :=
    lookupHash_mem_keys _ _ _ hv
  exact List.count_eq_one_of_mem (tidy_nodup base icons) hkmem

set_option maxRecDepth 1000000 in
set_option maxHeartbeats 2000000 in
/-- Claim C4 witness: feeding the same well-formed candidate twice leaves
exactly one entry under its hash. -/
theorem c4_dedup_identity_witness :
    ((tidyIcons none [c4D1, c4D1]).map Prod.fst).count
        (((normalizeIcon none c4D1).getD c4D1).Hash) = 1 :=
  ((c4_dedup_identity none [c4D1, c4D1]).2.2 c4D1 c4D1
    ((normalizeIcon none c4D1).getD c4D1) ((normalizeIcon none c4D1).getD c4D1)
    (by simp) (by simp) (by decide) (by decide) rfl rfl rfl).2

/-- Claim C5: every candidate surviving normalization — every value of the
dedup map, hence everything the filter chain ever observes — has a
non-empty URL and a non-empty MIME type, and with accept/reject filters
every icon in the pipeline's output does too. -/
theorem c5_normalization_invariant (base : Option GoURL) (icons : List Icon) :
    (∀ kv ∈ tidyIcons base icons, kv.2.URL ≠ "" ∧ kv.2.MimeType ≠ "")
    ∧ (∀ (filters : List (Icon → Option Icon)) (iter : List (String × Icon)),
        iter.Perm (tidyIcons base icons) →
        (∀ f ∈ filters, ∀ i, f i = none ∨ f i = some i) →
        ∀ icon ∈ postProcessIcons filters iter, icon.URL ≠ "" ∧ icon.MimeType ≠ "") := by
  refine ⟨tidy_values base icons, ?_⟩
  intro filters iter hperm hacc icon hmem
  simp only [postProcessIcons, filterSort] at hmem
  have hmem2 : icon ∈ (iter.map Prod.snd).filterMap (applyFilters filters) :=
    (sortGo_perm _ _).subset hmem
  obtain ⟨i0, hi0, happ⟩ := List.mem_filterMap.mp hmem2
  have heq : icon = i0 := applyFilters_acceptReject filters hacc i0 icon happ
  obtain ⟨kv, hkv, hsnd⟩ := List.mem_map.mp hi0
  have hkv2 : kv ∈ tidyIcons base icons := hperm.subset hkv
  have hval := tidy_values base icons kv hkv2
  rw [heq, ← hsnd]
  exact hval

set_option maxRecDepth 1000000 in
set_option maxHeartbeats 2000000 in
/-- Claim C5 witness: the invariant evaluated on a concrete pipeline run. -/
theorem c5_normalization_invariant_witness :
    (postProcessIcons [] (tidyIcons none [c4D1])).all
        (fun icon => decide (icon.URL ≠ "") && decide (icon.MimeType ≠ "")) = true := by
  have h := (c5_normalization_invariant none [c4D1]).2 [] (tidyIcons none [c4D1])
    (List.Perm.refl _) (by simp)
  rw [List.all_eq_true]
  intro icon hmem
  have h2 := h icon hmem
  simp [h2.1, h2.2]

/-- Claim C6: the MinWidth(100)/MaxWidth(200) filters commute, and their
composition keeps exactly the candidates whose width lies in the inclusive
interval [100, 200]. -/
theorem c6_width_filter_composition :
    (∀ entries : List Icon,
        filterSort [minWidthFilter 100, maxWidthFilter 200] entries
          = filterSort [maxWidthFilter 200, minWidthFilter 100] entries)
    ∧ (∀ entries : List Icon,
        filterSort [minWidthFilter 100, maxWidthFilter 200] entries
          = sortGo byWidthLess
              (entries.filter (fun i => decide (100 ≤ i.Width ∧ i.Width ≤ 200))))
    ∧ (∀ iter : List (String × Icon),
        postProcessIcons [minWidthFilter 100, maxWidthFilter 200] iter
          = postProcessIcons [maxWidthFilter 200, minWidthFilter 100] iter) := by
  have e1 : ∀ entries : List Icon,
      entries.filterMap (applyFilters [minWidthFilter 100, maxWidthFilter 200])
        = entries.filter (fun i => decide (100 ≤ i.Width ∧ i.Width ≤ 200)) := by
    intro entries
    rw [show (applyFilters [minWidthFilter 100, maxWidthFilter 200])
        = fun i => if 100 ≤ i.Width ∧ i.Width ≤ 200 then some i else none from
        funext (fun i => applyFilters_minmax 100 200 i)]
    exact filterMap_ifPred _ entries
  have e2 : ∀ entries : List Icon,
      entries.filterMap (applyFilters [maxWidthFilter 200, minWidthFilter 100])
        = entries.filter (fun i => decide (100 ≤ i.Width ∧ i.Width ≤ 200)) := by
    intro entries
    rw [show (applyFilters [maxWidthFilter 200, minWidthFilter 100])
        = fun i => if 100 ≤ i.Width ∧ i.Width ≤ 200 then some i else none from
        funext (fun i => applyFilters_maxmin 100 200 i)]
    exact filterMap_ifPred _ entries
  refine ⟨?_, ?_, ?_⟩
  · intro entries
    simp only [filterSort]
    rw [e1 entries, e2 entries]
  · intro entries
    simp only [filterSort]
    rw [e1 entries]
  · intro iter
    simp only [postProcessIcons, filterSort]
    rw [e1 _, e2 _]

/-- Claim C7: the content-identity hash is the hex SHA-256 digest of the
string formatted from (URL, Width, Height), and depends only on those
three fields. -/
theorem c7_iconHash_contract :
    (∀ i : Icon,
        iconHash i = sha256hex (utf8Encode
          (i.URL ++ ("-") ++ toString i.Width ++ ("x") ++ toString i.Height)))
    ∧ (∀ a b : Icon, a.URL = b.URL → a.Width = b.Width → a.Height = b.Height →
        iconHash a = iconHash b) :=
  ⟨fun _ => rfl, iconHash_congr⟩

/-- Claim C7 witness: two icons that agree on (URL, Width, Height) but
differ in MIME type, extension and stored hash receive the same hash. -/
theorem c7_iconHash_contract_witness : iconHash c7A = iconHash c7B :=
  c7_iconHash_contract.2 c7A c7B rfl rfl rfl

/-- Claim C8: an icon is square exactly when its width equals its height;
the OnlySquare filter passes squares — including the unknown size 0x0 —
and rejects everything else. -/
theorem c8_square_classification :
    (∀ i : Icon, i.IsSquare = true ↔ i.Width = i.Height)
    ∧ (∀ i : Icon, i.Width = i.Height → onlySquareFilter i = some i)
    ∧ (∀ i : Icon, i.Width ≠ i.Height → onlySquareFilter i = none)
    ∧ zeroIcon.IsSquare = true
    ∧ onlySquareFilter zeroIcon = some zeroIcon := by
  refine ⟨?_, ?_, ?_, by decide, by decide⟩
  · intro i
    simp [Icon.IsSquare]
  · intro i h
    simp [onlySquareFilter, Icon.IsSquare, h]
  · intro i h
    simp [onlySquareFilter, Icon.IsSquare, h]

/-- Claim C8 witness: the 0x0 icon passes OnlySquare and a 3x2 icon is
rejected. -/
theorem c8_square_classification_witness :
    onlySquareFilter zeroIcon = some zeroIcon ∧ onlySquareFilter rectIcon = none :=
  ⟨c8_square_classification.2.1 zeroIcon rfl,
   c8_square_classification.2.2.1 rectIcon (by decide)⟩

/-- Claim C9: with no base URL the prober returns nothing; with a base URL
it probes exactly favicon.ico then apple-touch-icon.png appended to
scheme://host/, keeping precisely the names whose fetch succeeds; a fetch
fails on transport error and on any status above 299, silently. -/
theorem c9_well_known_prober :
    (∀ client : String → Option Nat, findWellKnownIcons none client = [])
    ∧ (∀ (b : GoURL) (client : String → Option Nat),
        findWellKnownIcons (some b) client
          = (iconNames.filter (fun name =>
                (fetchURL client (b.scheme ++ ("://") ++ b.host ++ ("/") ++ name)).toBool)).map
              (fun name =>
                { URL := b.scheme ++ ("://") ++ b.host ++ ("/") ++ name, MimeType := "",
                  FileExt := "", Width := 0, Height := 0, Hash := "" }))
    ∧ iconNames = [("favicon.ico"), ("apple-touch-icon.png")]
    ∧ (∀ (client : String → Option Nat) (url : String) (status : Nat),
        client url = some status → 300 ≤ status → fetchURL client url = Except.error ())
    ∧ (∀ (client : String → Option Nat) (url : String),
        client url = none → fetchURL client url = Except.error ()) := by
  refine ⟨fun _ => rfl, ?_, rfl, ?_, ?_⟩
  · intro b client
    cases hf1 : fetchURL client (b.scheme ++ ("://") ++ b.host ++ ("/") ++ ("favicon.ico")) <;>
      cases hf2 : fetchURL client
          (b.scheme ++ ("://") ++ b.host ++ ("/") ++ ("apple-touch-icon.png")) <;>
        simp [findWellKnownIcons, iconNames, hf1, hf2, Except.toBool]
  · intro client url status hcl hst
    simp only [fetchURL, hcl]
    rw [if_pos (by omega)]
  · intro client url hcl
    simp [fetchURL, hcl]

/-- Claim C9 witness: a client that answers 404 everywhere yields no
well-known icons and a failing fetch. -/
theorem c9_well_known_prober_witness :
    findWellKnownIcons none clientAll404 = []
    ∧ fetchURL clientAll404 ("https://w.com/favicon.ico") = Except.error () :=
  ⟨c9_well_known_prober.1 clientAll404,
   c9_well_known_prober.2.2.2.1 clientAll404 ("https://w.com/favicon.ico") 404 rfl (by omega)⟩

/-- Claim C10: OnlyMimeType with an empty allow-list rejects every icon,
so a pipeline configured with it outputs nothing regardless of the
candidates discovered. -/
theorem c10_empty_allowlist_rejects_all :
    (∀ i : Icon, onlyMimeTypeFilter [] i = none)
    ∧ (∀ iter : List (String × Icon),
        postProcessIcons [onlyMimeTypeFilter []] iter = []) := by
  constructor
  · intro i
    rfl
  · intro iter
    simp only [postProcessIcons, filterSort]
    have hnil : (iter.map Prod.snd).filterMap (applyFilters [onlyMimeTypeFilter []]) = [] := by
      rw [List.filterMap_eq_nil_iff]
      intro a _
      rfl
    rw [hnil]
    rfl

/-! ### Sanity anchors for the standard-library models -/

set_option maxRecDepth 20000 in
example : sha256hex (utf8Encode ("abc"))
    = "ba7816bf8f01cfea414140de5dae2223b00361a396177a9cb410ff61f20015ad" := by decide

example : parseGoURL ("https://a.com")
    = some { scheme := "https", opq := "", host := "a.com", path := "",
             rawQuery := "", fragment := "" } := by decide

example : parseGoURL ("/x")
    = some { scheme := "", opq := "", host := "", path := "/x",
             rawQuery := "", fragment := "" } := by decide

example : absURL (some baseACom) ("") = "" := by decide

example : absURL none ("/root") = "/root" := by decide

example : absURL (some { scheme := "https", opq := "", host := "github.com", path := "",
                         rawQuery := "", fragment := "" }) ("/root")
    = "https://github.com/root" := by decide

example : absURL (some { scheme := "https", opq := "", host := "google.com", path := "",
                         rawQuery := "", fragment := "" }) ("https://github.com/root")
    = "https://github.com/root" := by decide

example : mimeTypeURL ("https://e.com/icon.png") = "image/png" := by decide

example : filepathExt ("/a/b.c/icon.png") = ".png" := by decide

example : extractSizeFromURL ("https://e.com/icon-196x196.png") = some (196, 196) := by decide
